import Mathlib

/-!
Shallow embedding of `gloria/datasets/pretraining_dataset.py`
(MultimodalPretrainingDataset and multimodal_collate_fn), together with
theorems settling the behavioural claims about the report-to-sentence
pipeline, the caption cache, caption selection, the image normalizer and
the batch collator.

Modelling conventions:
- Python strings are Lean `String`s (lists of Unicode scalar values).
- A missing / non-string `impression` value (e.g. NaN) is `Option.none`.
- The pickle cache is an `Option CaptionIndex` value threaded explicitly.
- `numpy.random.randint` consumes an abstract uniform draw `r : Nat`.
- Float arithmetic in `_resize_img` (`int(x * (scale / y))`) is modelled as
  exact rational arithmetic with a final floor, i.e. Nat division.
-/

/-- Python regular-expression word character (the `\w` class used by
`RegexpTokenizer(r"\w+")`): ASCII alphanumerics and underscore, plus Unicode
letters.  The Unicode part is modelled for the Latin-1 supplement, Latin
Extended and Greek letter ranges, which cover the non-ASCII characters
arising in this development. -/
def isWordChar (c : Char) : Bool :=
  c.isAlphanum || c == '_' ||
    (0xC0 ≤ c.toNat && c.toNat ≤ 0x24F && c.toNat != 0xD7 && c.toNat != 0xF7) ||
    (0x370 ≤ c.toNat && c.toNat ≤ 0x3FF)

/-- Python `t.encode("ascii", "ignore").decode("ascii")`: drop every
non-ASCII character of the token. -/
def asciiStrip (t : String) : String :=
  String.mk (t.data.filter (fun c => c.toNat ≤ 127))

/-- Accumulator pass of `RegexpTokenizer(r"\w+").tokenize`: collect maximal
runs of word characters, discarding all separator characters.  `cur` holds
the (reversed) run currently being scanned. -/
def wTokenizeAux : List Char → List Char → List String
  | [], cur => if cur.isEmpty then [] else [String.mk cur.reverse]
  | c :: rest, cur =>
    if isWordChar c then wTokenizeAux rest (c :: cur)
    else if cur.isEmpty then wTokenizeAux rest []
    else String.mk cur.reverse :: wTokenizeAux rest []

/-- `RegexpTokenizer(r"\w+").tokenize(s)`: the maximal runs of word
characters of `s`, in order. -/
def wTokenize (s : String) : List String := wTokenizeAux s.data []

/-- Accumulator pass of `re.compile("[0-9]+\.").split`: `digits` holds the
(reversed) pending run of digits, `acc` the (reversed) characters of the
current block.  A `.` immediately following a non-empty digit run closes the
current block (the digits and the dot are consumed by the match); any other
character flushes the pending digits back into the block. -/
def bulletSplitAux : List Char → List Char → List Char → List String
  | [], digits, acc => [String.mk (acc.reverse ++ digits.reverse)]
  | c :: rest, digits, acc =>
    if c.isDigit then bulletSplitAux rest (c :: digits) acc
    else if c == '.' then
      if digits.isEmpty then bulletSplitAux rest [] (c :: acc)
      else String.mk acc.reverse :: bulletSplitAux rest [] []
    else bulletSplitAux rest [] (c :: (digits ++ acc))

/-- `re.compile("[0-9]+\.").split(s)`: split `s` at every occurrence of a
maximal digit run immediately followed by a literal period. -/
def bulletSplit (s : String) : List String := bulletSplitAux s.data [] []

/-- Python `point.split(".")` for the single-character separator `"."`:
cut at every period; `n` periods yield `n + 1` (possibly empty) pieces. -/
def splitDotAux : List Char → List Char → List String
  | [], cur => [String.mk cur.reverse]
  | c :: rest, cur =>
    if c == '.' then String.mk cur.reverse :: splitDotAux rest []
    else splitDotAux rest (c :: cur)

/-- `point.split(".")` on strings. -/
def splitOnDot (s : String) : List String := splitDotAux s.data []

/-- Lines 160-163 of the source: split the report on the numeric bullet
pattern, split each block on the literal period, and flatten. -/
def splitCandidates (s : String) : List String :=
  ((bulletSplit s).map splitOnDot).flatten

/-- Python `captions.replace("\n", " ")`: the pattern is a single character,
so the replacement is the character map sending newline to space. -/
def replaceNewlines (s : String) : String :=
  String.mk (s.data.map (fun c => if c = '\n' then ' ' else c))

/-- Python `cap.replace("��", " ")`: replace every non-overlapping
occurrence (left to right) of two consecutive U+FFFD replacement characters
by one space. -/
def replaceFFFDAux : List Char → List Char
  | [] => []
  | [c] => [c]
  | c1 :: c2 :: rest =>
    if c1 == '�' && c2 == '�' then ' ' :: replaceFFFDAux rest
    else c1 :: replaceFFFDAux (c2 :: rest)

/-- `cap.replace("��", " ")` on strings. -/
def replaceFFFD (s : String) : String := String.mk (replaceFFFDAux s.data)

/-- Python `cap.lower()`, modelled character-wise with `Char.toLower`
(which lower-cases the ASCII range; the non-ASCII characters used in this
development are already lower-case). -/
def strToLower (s : String) : String := String.mk (s.data.map Char.toLower)

/-- Lines 173-177: replace the doubled replacement character by a space,
lower-case, and tokenize into maximal word-character runs. -/
def capTokens (cap : String) : List String :=
  wTokenize (strToLower (replaceFFFD cap))

/-- Lines 185-189: ASCII-strip each token and keep the non-empty results. -/
def includedTokens (tokens : List String) : List String :=
  (tokens.map asciiStrip).filter (fun t => 0 < t.length)

/-- The inner sentence loop of `create_path_2_sent_mapping` (lines 165-195):
iterate over the sentence candidates carrying the running token count `cnt`;
skip empty candidates and candidates with at most one (raw) token; append
the joined ASCII-filtered tokens as one sentence; `break` when the running
count becomes exactly `maxWordNum`. -/
def sentLoop (maxWordNum : Nat) : List String → Nat → List String
  | [], _ => []
  | cap :: rest, cnt =>
    if cap.length == 0 then sentLoop maxWordNum rest cnt
    else
      let tokens := capTokens cap
      if tokens.length ≤ 1 then sentLoop maxWordNum rest cnt
      else
        let included := includedTokens tokens
        let sent := String.intercalate " " included
        let cnt2 := cnt + included.length
        if cnt2 == maxWordNum then [sent]
        else sent :: sentLoop maxWordNum rest cnt2

/-- One row of the metadata frame, as consumed by
`create_path_2_sent_mapping` and `load_text_data`.  `impression = none`
models a non-string value (e.g. NaN). -/
structure StudyRecord where
  imgPath : String
  split : String
  impression : Option String
deriving DecidableEq

/-- Lines 148-150: start from the empty string and append the impression
only when it is a string. -/
def recordCaptions (r : StudyRecord) : String :=
  match r.impression with
  | some s => s
  | none => ""

/-- Python dict assignment `d[k] = v`: overwrite in place when the key is
present, append otherwise (insertion order preserved). -/
def dictInsert (k : String) (v : List String) :
    List (String × List String) → List (String × List String)
  | [] => [(k, v)]
  | (k2, v2) :: rest =>
    if k2 == k then (k, v) :: rest else (k2, v2) :: dictInsert k v rest

/-- The keys of the modelled dict, in insertion order. -/
def dictKeys (m : List (String × List String)) : List String := m.map Prod.fst

/-- The body of the `for idx, row in df.iterrows()` loop of
`create_path_2_sent_mapping` (lines 145-204), acting on the accumulated
`(path2sent, to_remove)` pair: append the path to `to_remove` when the raw
report is empty, run the sentence loop, then store the non-empty sentence
list in the mapping or append the path to `to_remove` again. -/
def buildStep (maxWordNum : Nat) (acc : List (String × List String) × List String)
    (r : StudyRecord) : List (String × List String) × List String :=
  let captions := recordCaptions r
  let toRemove1 := if captions.length == 0 then acc.2 ++ [r.imgPath] else acc.2
  let captions2 := replaceNewlines captions
  let studySent := sentLoop maxWordNum (splitCandidates captions2) 0
  if 0 < studySent.length then (dictInsert r.imgPath studySent acc.1, toRemove1)
  else (acc.1, toRemove1 ++ [r.imgPath])

/-- `create_path_2_sent_mapping(df, max_word_num)` (lines 141-216): fold the
loop body over the records, starting from an empty mapping and an empty
removal list.  (The printed corpus statistics have no effect on the returned
pair and are not modelled.) -/
def create_path_2_sent_mapping (maxWordNum : Nat) (records : List StudyRecord) :
    List (String × List String) × List String :=
  records.foldl (buildStep maxWordNum) ([], [])

/-- The two values stored in / loaded from `captions.pickle`:
`path2sent` and `to_remove`. -/
structure CaptionIndex where
  mapping : List (String × List String)
  excluded : List String
deriving DecidableEq

/-- The cache branch of `load_text_data` (lines 69-81): on a hit return the
deserialized artifact verbatim; on a miss build the mapping from the records
and persist it.  Returns the index together with the cache state after the
call. -/
def load_or_build (cache : Option CaptionIndex) (maxWordNum : Nat)
    (records : List StudyRecord) : CaptionIndex × Option CaptionIndex :=
  match cache with
  | some idx => (idx, some idx)
  | none =>
    let built := create_path_2_sent_mapping maxWordNum records
    (⟨built.1, built.2⟩, some ⟨built.1, built.2⟩)

/-- Line 84: the image paths of the records of the requested split,
in record order. -/
def splitFilenames (records : List StudyRecord) (split : String) : List String :=
  (records.filter (fun r => r.split == split)).map (fun r => r.imgPath)

/-- `load_text_data(split)` (lines 66-87): obtain the caption index from the
cache (building it on a miss), then keep the split's image paths that are
not in the `to_remove` list. -/
def load_text_data (cache : Option CaptionIndex) (maxWordNum : Nat)
    (records : List StudyRecord) (split : String) : List String × CaptionIndex :=
  let lb := load_or_build cache maxWordNum records
  let idx := lb.1
  let filenames := (splitFilenames records split).filter
    (fun f => !(idx.excluded.contains f))
  (filenames, idx)

/-- `numpy.random.randint(lo, hi)`: a uniform draw from the half-open range
`[lo, hi)`.  `r` is the raw uniform natural number supplied by the random
source; reduction modulo the range size maps a uniform `r` to a uniform
element of the range. -/
def numpyRandint (lo hi r : Nat) : Nat := lo + r % (hi - lo)

/-- `get_caption` (lines 89-101) up to the external tokenizer boundary:
raise when the sentence list of the path is empty; in full-report mode join
all sentences with spaces; otherwise return the sentence at a uniformly
drawn index. -/
def get_caption (fullReport : Bool) (r : Nat) (sents : List String) :
    Except String String :=
  if sents.length == 0 then Except.error "no sentence for path"
  else if fullReport then Except.ok (String.intercalate " " sents)
  else
    let ix := numpyRandint 0 sents.length r
    Except.ok (sents.getD ix "")

/-- The rectangular grid of pixel values of height `h` and width `w` whose
entry at row `i`, column `j` is `f i j`.  Used to model 2D numpy arrays; `f`
abstracts the pixel content produced by `cv2.resize` (INTER_AREA
interpolation), which the claims do not constrain. -/
def mkGrid (h w : Nat) (f : Nat → Nat → Nat) : List (List Nat) :=
  (List.range h).map (fun i => (List.range w).map (f i))

/-- `np.pad(g, [(top, bottom), (left, right)], "constant", constant_values=0)`
for a grid of width `w`: zero rows above and below, zero columns before and
after each row. -/
def padGrid (top bottom left right w : Nat) (g : List (List Nat)) :
    List (List Nat) :=
  List.replicate top (List.replicate (left + w + right) 0)
    ++ g.map (fun row => List.replicate left 0 ++ row ++ List.replicate right 0)
    ++ List.replicate bottom (List.replicate (left + w + right) 0)

/-- The resize branch of `_resize_img` (lines 226-243): the longer spatial
dimension becomes exactly `scale` and the shorter is scaled by the same
factor and floored (`int(size[i] * (scale / size[j]))`, modelled as exact
Nat division).  `size.index(max(size))` is 0 exactly when `h ≥ w`.  Returns
`(new height, new width)`. -/
def resizeDims (scale h w : Nat) : Nat × Nat :=
  if h ≥ w then (scale, w * scale / h) else (h * scale / w, scale)

/-- The padding branch of `_resize_img` (lines 246-259): pad the shorter
(resized) dimension to `scale`, `floor(pad/2)` leading and `ceil(pad/2)`
trailing; the longer dimension receives no padding.  Returns
`(top, bottom, left, right)`. -/
def padAmounts (scale h w : Nat) : Nat × Nat × Nat × Nat :=
  if h ≥ w then
    let newW := w * scale / h
    let pad := scale - newW
    (0, 0, pad / 2, pad - pad / 2)
  else
    let newH := h * scale / w
    let pad := scale - newH
    (pad / 2, pad - pad / 2, 0, 0)

/-- `_resize_img(img, scale)` (lines 218-264) for an `h × w` image: resize
so the longer dimension is `scale` (resized pixel content abstracted by
`f`), then zero-pad the shorter dimension to `scale`. -/
def _resize_img (scale h w : Nat) (f : Nat → Nat → Nat) : List (List Nat) :=
  let d := resizeDims scale h w
  let p := padAmounts scale h w
  padGrid p.1 p.2.1 p.2.2.1 p.2.2.2 d.2 (mkGrid d.1 d.2 f)

/-- One element of the batch list passed to `multimodal_collate_fn`: the
4-tuple returned by `__getitem__` with the token tensors flattened
(`imgs, (input_ids, token_type_ids, attention_mask), cap_len, key`).
The image is an opaque identifier; token tensors are rows of `Nat`. -/
structure Sample where
  img : Nat
  inputIds : List Nat
  tokenTypeIds : List Nat
  attentionMask : List Nat
  capLen : Nat
  path : String
deriving DecidableEq

/-- The dictionary returned by `multimodal_collate_fn`. -/
structure Batch where
  caption_ids : List (List Nat)
  token_type_ids : List (List Nat)
  attention_mask : List (List Nat)
  imgs : List Nat
  cap_lens : List Nat
  path : List String
deriving DecidableEq

/-- The comparison used to model `torch.sort(·, 0, True)` on
`(value, original index)` pairs: non-increasing by value. -/
def descOrder (p q : Nat × Nat) : Prop := q.1 ≤ p.1

instance : DecidableRel descOrder := fun p q => Nat.decLe q.1 p.1

instance : IsTotal (Nat × Nat) descOrder := ⟨fun p q => Nat.le_total q.1 p.1⟩

instance : IsTrans (Nat × Nat) descOrder := ⟨fun _ _ _ h1 h2 => Nat.le_trans h2 h1⟩

/-- `torch.sort(torch.tensor(xs), 0, True)`: the values of `xs` sorted in
non-increasing order, paired with the original indices realising that order.
(The tie order among equal values is unspecified by `torch.sort`; it is
modelled as stable.) -/
def sortDesc (xs : List Nat) : List Nat × List Nat :=
  let sorted := List.insertionSort descOrder
    ((List.range xs.length).map (fun i => (xs.getD i 0, i)))
  (sorted.map Prod.fst, sorted.map Prod.snd)

/-- Tensor indexing `t[indices]` for a stacked list, with a default for the
out-of-range case that a valid permutation never hits. -/
def indexBy (idx : List Nat) (xs : List α) (dflt : α) : List α :=
  idx.map (fun i => xs.getD i dflt)

/-- `multimodal_collate_fn(batch)` (lines 267-299): unzip the samples, sort
the caption lengths descending, index every stacked tensor by the sort
indices, and return the dictionary — with the `path` list passed through
as-is. -/
def multimodal_collate_fn (batch : List Sample) : Batch :=
  let imgs := batch.map (fun b => b.img)
  let cap_len := batch.map (fun b => b.capLen)
  let ids := batch.map (fun b => b.inputIds)
  let tokens := batch.map (fun b => b.tokenTypeIds)
  let attention := batch.map (fun b => b.attentionMask)
  let path := batch.map (fun b => b.path)
  let s := sortDesc cap_len
  { caption_ids := indexBy s.2 ids []
    token_type_ids := indexBy s.2 tokens []
    attention_mask := indexBy s.2 attention []
    imgs := indexBy s.2 imgs 0
    cap_lens := s.1
    path := path }

/-- A sentence candidate passes both skip-checks of the sentence loop: it is
non-empty and has strictly more than one raw token. -/
def capQualifies (cap : String) : Bool :=
  cap.length != 0 && 1 < (capTokens cap).length

/-- The sentence string appended for a qualifying candidate: the
ASCII-filtered tokens joined by single spaces. -/
def capSent (cap : String) : String :=
  String.intercalate " " (includedTokens (capTokens cap))

/-- The number of tokens a qualifying candidate contributes to the running
word count. -/
def capCount (cap : String) : Nat := (includedTokens (capTokens cap)).length

/-- The running word totals observed by the sentence loop: for each
qualifying candidate, the value of `cnt` right after its tokens are
counted. -/
def capTotals (cnt : Nat) : List String → List Nat
  | [] => []
  | cap :: rest =>
    if capQualifies cap then
      (cnt + capCount cap) :: capTotals (cnt + capCount cap) rest
    else capTotals cnt rest

/-- Whether a record's report yields a non-empty sentence list, i.e. whether
`create_path_2_sent_mapping` stores the record in the mapping rather than in
the removal list. -/
def recordKept (maxWordNum : Nat) (r : StudyRecord) : Bool :=
  0 < (sentLoop maxWordNum
    (splitCandidates (replaceNewlines (recordCaptions r))) 0).length

/-- The image paths appended to `to_remove` while processing one record:
once if the raw report is empty, and once more if the sentence list comes
out empty. -/
def removeDelta (maxWordNum : Nat) (r : StudyRecord) : List String :=
  (if (recordCaptions r).length == 0 then [r.imgPath] else []) ++
    (if recordKept maxWordNum r then [] else [r.imgPath])

/-- The image paths of a record list, in order. -/
def pathsOf (records : List StudyRecord) : List String :=
  records.map (fun r => r.imgPath)

/-!
Helper lemmas shared by the claim theorems.
-/

theorem mem_dictInsert_elim {k : String} {v : List String}
    {m : List (String × List String)} {p : String × List String}
    (h : p ∈ dictInsert k v m) : p = (k, v) ∨ p ∈ m := by
  induction m with
  | nil => simpa [dictInsert] using h
  | cons q rest ih =>
    rcases q with ⟨k2, v2⟩
    rw [dictInsert] at h
    by_cases hk : k2 == k
    · rw [if_pos hk] at h
      rcases List.mem_cons.mp h with h1 | h1
      · exact Or.inl h1
      · exact Or.inr (List.mem_cons_of_mem _ h1)
    · rw [if_neg hk] at h
      rcases List.mem_cons.mp h with h1 | h1
      · exact Or.inr (h1 ▸ List.mem_cons_self _ _)
      · rcases ih h1 with h2 | h2
        · exact Or.inl h2
        · exact Or.inr (List.mem_cons_of_mem _ h2)

theorem mem_dictKeys_dictInsert {k : String} {v : List String}
    {m : List (String × List String)} {p : String} :
    p ∈ dictKeys (dictInsert k v m) ↔ p = k ∨ p ∈ dictKeys m := by
  induction m with
  | nil => simp [dictInsert, dictKeys]
  | cons q rest ih =>
    rcases q with ⟨k2, v2⟩
    rw [dictInsert]
    by_cases hk : k2 == k
    · have hk2 : k2 = k := by simpa using hk
      rw [if_pos hk]
      simp [dictKeys, hk2]
    · have hk2 : k2 ≠ k := by simpa using hk
      rw [if_neg hk]
      simp only [dictKeys, List.map_cons, List.mem_cons] at ih ⊢
      tauto

theorem build_values_ne_nil (maxWordNum : Nat) (records : List StudyRecord) :
    ∀ (acc : List (String × List String) × List String),
      (∀ p s, (p, s) ∈ acc.1 → s ≠ []) →
      ∀ p s, (p, s) ∈ (records.foldl (buildStep maxWordNum) acc).1 → s ≠ [] := by
  induction records with
  | nil => intro acc hacc; simpa using hacc
  | cons r rest ih =>
    intro acc hacc p s hmem
    rw [List.foldl_cons] at hmem
    refine ih (buildStep maxWordNum acc r) ?_ p s hmem
    intro p2 s2 h2
    unfold buildStep at h2
    by_cases hkept :
        0 < (sentLoop maxWordNum
          (splitCandidates (replaceNewlines (recordCaptions r))) 0).length
    · rw [if_pos hkept] at h2
      rcases mem_dictInsert_elim h2 with h3 | h3
      · have hs : s2 = sentLoop maxWordNum
            (splitCandidates (replaceNewlines (recordCaptions r))) 0 :=
          congrArg Prod.snd h3
        rw [hs]
        exact List.ne_nil_of_length_pos hkept
      · exact hacc p2 s2 h3
    · rw [if_neg hkept] at h2
      exact hacc p2 s2 h2

/-!
Claim theorems.
-/

/-- C9: `load_or_build` is idempotent.  With a populated cache the call
returns the deserialized artifact verbatim, independently of the supplied
study records (no revalidation); on a miss it returns exactly the freshly
built `create_path_2_sent_mapping` contents; and a second call with the
cache state produced by any first call returns the identical result, so the
freshly built and reloaded indices coincide. -/
theorem C9_load_or_build_idempotent (idx : CaptionIndex) (maxWordNum : Nat)
    (records records2 : List StudyRecord) (cache : Option CaptionIndex) :
    load_or_build (some idx) maxWordNum records2 = (idx, some idx) ∧
    (load_or_build none maxWordNum records).1 =
      ⟨(create_path_2_sent_mapping maxWordNum records).1,
        (create_path_2_sent_mapping maxWordNum records).2⟩ ∧
    load_or_build (load_or_build cache maxWordNum records).2 maxWordNum records
      = load_or_build cache maxWordNum records := by
  refine ⟨rfl, rfl, ?_⟩
  cases cache <;> rfl

/-- C10: a record whose report is the empty string or a non-string value has
its image path appended to the removal list twice — once by the empty-report
check and once by the empty-sentence-list check — so `to_remove` is a list
that can hold duplicate paths. -/
theorem C10_empty_report_double_removal (maxWordNum : Nat)
    (acc : List (String × List String) × List String) (r : StudyRecord)
    (h : r.impression = none ∨ r.impression = some "") :
    buildStep maxWordNum acc r = (acc.1, acc.2 ++ [r.imgPath, r.imgPath]) ∧
    (create_path_2_sent_mapping maxWordNum [r]).2.count r.imgPath = 2 := by
  have hc : recordCaptions r = "" := by
    rcases h with h | h <;> simp [recordCaptions, h]
  have hsent : sentLoop maxWordNum (splitCandidates (replaceNewlines "")) 0 = [] := by
    have hcand : splitCandidates (replaceNewlines "") = [""] := by decide
    rw [hcand]
    simp [sentLoop]
  have hstep : ∀ acc2 : List (String × List String) × List String,
      buildStep maxWordNum acc2 r = (acc2.1, acc2.2 ++ [r.imgPath, r.imgPath]) := by
    intro acc2
    simp only [buildStep, hc, hsent]
    simp
  refine ⟨hstep acc, ?_⟩
  have hone : create_path_2_sent_mapping maxWordNum [r]
      = buildStep maxWordNum ([], []) r := rfl
  rw [hone, hstep ([], [])]
  simp [List.count_cons]

/-- C10 witness: a concrete record with a non-string report is appended to
the removal list twice. -/
theorem C10_witness :
    ((⟨"q", "t", none⟩ : StudyRecord).impression = none ∨
      (⟨"q", "t", none⟩ : StudyRecord).impression = some "") ∧
    buildStep 5 ([], []) ⟨"q", "t", none⟩ = ([], ["q", "q"]) :=
  ⟨Or.inl rfl,
    (C10_empty_report_double_removal 5 ([], []) ⟨"q", "t", none⟩ (Or.inl rfl)).1⟩

/-- C8: in random-sentence mode the drawn index is `r % len`, lies in the
half-open range `[0, len)` (the value `len` is never drawn), every index of
the collection is drawn for some raw draw — exactly once in every window of
`len` consecutive raw draws, so a uniform raw draw yields a uniform index —
and the returned text is the single sentence at the drawn index. -/
theorem C8_random_sentence_uniform (r : Nat) (sents : List String)
    (hne : sents ≠ []) :
    numpyRandint 0 sents.length r = r % sents.length ∧
    numpyRandint 0 sents.length r < sents.length ∧
    (∀ i, i < sents.length → ∃ r2, numpyRandint 0 sents.length r2 = i) ∧
    (∀ i, i < sents.length → ∀ k,
      numpyRandint 0 sents.length (k * sents.length + i) = i) ∧
    get_caption false r sents =
      Except.ok (sents.getD (numpyRandint 0 sents.length r) "") := by
  have hn : 0 < sents.length := List.length_pos.mpr hne
  have h0 : sents.length ≠ 0 := Nat.pos_iff_ne_zero.mp hn
  refine ⟨by simp [numpyRandint], ?_, ?_, ?_, ?_⟩
  · simpa [numpyRandint] using Nat.mod_lt r hn
  · intro i hi
    exact ⟨i, by simp [numpyRandint, Nat.mod_eq_of_lt hi]⟩
  · intro i hi k
    simp only [numpyRandint, Nat.sub_zero, Nat.zero_add]
    rw [Nat.add_comm, Nat.add_mul_mod_self_right, Nat.mod_eq_of_lt hi]
  · simp [get_caption, h0]

/-- C8 witness: with two sentences and raw draw 3 the selected index is 1
and the second sentence is returned. -/
theorem C8_witness :
    (["s0", "s1"] ≠ ([] : List String)) ∧
    get_caption false 3 ["s0", "s1"] = Except.ok "s1" :=
  ⟨by decide, (C8_random_sentence_uniform 3 ["s0", "s1"] (by decide)).2.2.2.2⟩

/-- C6: caption selection fails (raises) exactly when the sentence
collection is empty, and every sentence collection stored in a freshly built
mapping is non-empty — the error branch is unreachable for any path present
in the built mapping, which instead sends empty collections to the removal
list. -/
theorem C6_empty_caption_error (fullReport : Bool) (r maxWordNum : Nat)
    (records : List StudyRecord) (path : String) (sents : List String)
    (hmem : (path, sents) ∈ (create_path_2_sent_mapping maxWordNum records).1) :
    (∀ s2 : List String,
      (∃ e, get_caption fullReport r s2 = Except.error e) ↔ s2 = []) ∧
    sents ≠ [] ∧
    ∃ t, get_caption fullReport r sents = Except.ok t := by
  have herr : ∀ s2 : List String,
      (∃ e, get_caption fullReport r s2 = Except.error e) ↔ s2 = [] := by
    intro s2
    cases s2 with
    | nil => simp [get_caption]
    | cons a l =>
      constructor
      · rintro ⟨e, he⟩
        unfold get_caption at he
        rw [if_neg (by simp)] at he
        cases fullReport with
        | true => simp at he
        | false => simp at he
      · intro h
        exact absurd h (List.cons_ne_nil a l)
  have hne : sents ≠ [] :=
    build_values_ne_nil maxWordNum records ([], []) (by simp) path sents hmem
  refine ⟨herr, hne, ?_⟩
  cases hval : get_caption fullReport r sents with
  | error e =>
    exact absurd ((herr sents).mp ⟨e, hval⟩) hne
  | ok t => exact ⟨t, rfl⟩

/-- C6 witness: a concrete record whose report yields the collection
`["aa bb"]`; the stored collection is non-empty and selection succeeds. -/
theorem C6_witness :
    (("p", ["aa bb"]) ∈
      (create_path_2_sent_mapping 100 [⟨"p", "t", some "aa bb"⟩]).1) ∧
    ["aa bb"] ≠ ([] : List String) ∧
    ∃ t, get_caption true 0 ["aa bb"] = Except.ok t :=
  ⟨by decide,
    (C6_empty_caption_error true 0 100 [⟨"p", "t", some "aa bb"⟩] "p" ["aa bb"]
      (by decide)).2⟩

theorem sentLoop_no_hit (maxWordNum : Nat) :
    ∀ (caps : List String) (cnt : Nat), maxWordNum ∉ capTotals cnt caps →
      sentLoop maxWordNum caps cnt = (caps.filter capQualifies).map capSent := by
  intro caps
  induction caps with
  | nil => intro cnt _; rfl
  | cons cap rest ih =>
    intro cnt h
    by_cases h0 : (cap.length == 0) = true
    · have hq : capQualifies cap = false := by
        simp only [capQualifies, bne, h0]
        simp
      simp only [sentLoop]
      rw [if_pos h0, List.filter_cons_of_neg (by simp [hq])]
      apply ih
      simp only [capTotals] at h
      rwa [if_neg (by simp [hq])] at h
    · by_cases hle : (capTokens cap).length ≤ 1
      · have hq : capQualifies cap = false := by
          have h1 : ¬ 1 < (capTokens cap).length := by omega
          simp [capQualifies, h1]
        simp only [sentLoop]
        rw [if_neg h0, if_pos hle, List.filter_cons_of_neg (by simp [hq])]
        apply ih
        simp only [capTotals] at h
        rwa [if_neg (by simp [hq])] at h
      · have hq : capQualifies cap = true := by
          have h1 : 1 < (capTokens cap).length := by omega
          have h2 : cap.length ≠ 0 := by simpa using h0
          simp [capQualifies, h1, h2]
        simp only [capTotals] at h
        rw [if_pos hq] at h
        simp only [List.mem_cons, not_or] at h
        obtain ⟨h1, h2⟩ := h
        have hcond : ¬((cnt + (includedTokens (capTokens cap)).length
            == maxWordNum) = true) := by
          rw [beq_iff_eq]
          exact fun hc => h1 hc.symm
        simp only [sentLoop]
        rw [if_neg h0, if_neg hle, if_neg hcond,
          List.filter_cons_of_pos hq, List.map_cons,
          ih (cnt + (includedTokens (capTokens cap)).length) h2]
        rfl

theorem sentLoop_exact_hit (maxWordNum cnt : Nat) (cap : String)
    (rest : List String) (hq : capQualifies cap = true)
    (hhit : cnt + capCount cap = maxWordNum) :
    sentLoop maxWordNum (cap :: rest) cnt = [capSent cap] := by
  have hq2 : cap.length ≠ 0 ∧ 1 < (capTokens cap).length := by
    simpa [capQualifies] using hq
  have hle : ¬ (capTokens cap).length ≤ 1 := by
    have := hq2.2
    omega
  simp only [sentLoop]
  rw [if_neg (by simp [hq2.1]), if_neg hle,
    if_pos (show (cnt + (includedTokens (capTokens cap)).length
      == maxWordNum) = true by rw [beq_iff_eq]; exact hhit)]
  rfl

/-- C2 (amended): the sentence loop stops mid-report exactly when the
running total of included tokens becomes equal to `max_word_count`: when a
sentence brings the total to exactly the cap the loop breaks right after
appending it, but when no running total ever equals the cap — in particular
when a sentence makes the total jump past the cap without equalling it —
every qualifying sentence of the report is appended and processing never
stops early. -/
theorem C2_stop_only_on_exact_equality (maxWordNum cnt : Nat)
    (caps : List String) :
    (maxWordNum ∉ capTotals cnt caps →
      sentLoop maxWordNum caps cnt = (caps.filter capQualifies).map capSent) ∧
    ∀ cap rest, capQualifies cap = true → cnt + capCount cap = maxWordNum →
      sentLoop maxWordNum (cap :: rest) cnt = [capSent cap] :=
  ⟨sentLoop_no_hit maxWordNum caps cnt,
    fun cap rest hq hhit => sentLoop_exact_hit maxWordNum cnt cap rest hq hhit⟩

/-- C2 witness: with cap 5 and two candidates of three tokens each, the
running totals are 3 and 6 — never exactly 5 — and both sentences are kept
even though the total jumped past the cap. -/
theorem C2_witness :
    (5 ∉ capTotals 0 ["aa bb cc", " dd ee ff"]) ∧
    sentLoop 5 ["aa bb cc", " dd ee ff"] 0 = ["aa bb cc", "dd ee ff"] :=
  ⟨by decide,
    (C2_stop_only_on_exact_equality 5 0 ["aa bb cc", " dd ee ff"]).1 (by decide)⟩

/-- C2 counterexample: with `max_word_count = 5` and a report of three
three-token sentences, the running total passes 5 (3, then 6, then 9)
without ever equalling it, and all three sentences are appended — refuting
the claim that no further sentences are appended once the running total is
greater than or equal to the cap. -/
theorem C2_counterexample :
    (create_path_2_sent_mapping 5
      [⟨"p", "train", some "aa bb cc. aa bb cc. aa bb cc"⟩]).1
      = [("p", ["aa bb cc", "aa bb cc", "aa bb cc"])] ∧
    capCount "aa bb cc" = 3 ∧ capCount " aa bb cc" = 3 :=
  ⟨by decide, by decide, by decide⟩

/-- C3 (amended): the ordered filenames list of a split is exactly the
split-filtered record paths with those occurring in the index's exclusion
list removed, preserving record order; membership in the caption mapping is
not consulted, so with a stale loaded cache a path absent from the mapping
can still appear in the list. -/
theorem C3_filenames_filter_by_exclusion (cache : Option CaptionIndex)
    (maxWordNum : Nat) (records : List StudyRecord) (split : String) :
    (load_text_data cache maxWordNum records split).1.Sublist
      (splitFilenames records split) ∧
    ∀ f, f ∈ (load_text_data cache maxWordNum records split).1 ↔
      f ∈ splitFilenames records split ∧
        f ∉ (load_text_data cache maxWordNum records split).2.excluded := by
  constructor
  · exact List.filter_sublist (splitFilenames records split)
  · intro f
    simp only [load_text_data, List.mem_filter]
    constructor
    · rintro ⟨h1, h2⟩
      refine ⟨h1, ?_⟩
      simpa using h2
    · rintro ⟨h1, h2⟩
      refine ⟨h1, ?_⟩
      simpa using h2

/-- C3 counterexample: a cache artifact with an empty mapping and an empty
exclusion list is loaded verbatim; the record path "p1" then appears in the
filenames list although it is not a key of the mapping — refuting the claim
that only mapping keys appear. -/
theorem C3_counterexample :
    ("p1" ∈
      (load_text_data (some ⟨[], []⟩) 5 [⟨"p1", "train", some "x"⟩] "train").1) ∧
    "p1" ∉ dictKeys
      (load_text_data (some ⟨[], []⟩) 5
        [⟨"p1", "train", some "x"⟩] "train").2.mapping :=
  ⟨by decide, by decide⟩

/-- C4 (amended): every sentence appended by the sentence loop comes from a
candidate whose RAW token list (before ASCII filtering) has length at least
2, and equals the space-join of the candidate's ASCII-filtered tokens; the
length-at-most-one check precedes the ASCII filter, so no lower bound holds
for the post-filter token count and the appended sentence can even be the
empty string. -/
theorem C4_length_check_before_ascii_filter (maxWordNum : Nat) :
    ∀ (caps : List String) (cnt : Nat) (s : String),
      s ∈ sentLoop maxWordNum caps cnt →
      ∃ cap ∈ caps, 1 < (capTokens cap).length ∧ s = capSent cap := by
  intro caps
  induction caps with
  | nil =>
    intro cnt s h
    simp [sentLoop] at h
  | cons cap rest ih =>
    intro cnt s h
    simp only [sentLoop] at h
    by_cases h0 : (cap.length == 0) = true
    · rw [if_pos h0] at h
      obtain ⟨c, hc, hr⟩ := ih cnt s h
      exact ⟨c, List.mem_cons_of_mem _ hc, hr⟩
    · rw [if_neg h0] at h
      by_cases hle : (capTokens cap).length ≤ 1
      · rw [if_pos hle] at h
        obtain ⟨c, hc, hr⟩ := ih cnt s h
        exact ⟨c, List.mem_cons_of_mem _ hc, hr⟩
      · rw [if_neg hle] at h
        have hgt : 1 < (capTokens cap).length := by omega
        by_cases hhit : ((cnt + (includedTokens (capTokens cap)).length
            == maxWordNum) = true)
        · rw [if_pos hhit] at h
          rw [List.mem_singleton] at h
          exact ⟨cap, List.mem_cons_self cap rest, hgt, h⟩
        · rw [if_neg hhit] at h
          rcases List.mem_cons.mp h with h1 | h1
          · exact ⟨cap, List.mem_cons_self cap rest, hgt, h1⟩
          · obtain ⟨c, hc, hr⟩ := ih _ s h1
            exact ⟨c, List.mem_cons_of_mem _ hc, hr⟩

/-- C4 witness: the empty sentence "" appended for the two-raw-token
candidate "αβ γδ" indeed comes from a candidate with two raw tokens. -/
theorem C4_witness :
    ("" ∈ sentLoop 100 ["αβ γδ"] 0) ∧
    ∃ cap ∈ ["αβ γδ"], 1 < (capTokens cap).length ∧ "" = capSent cap :=
  ⟨by decide,
    C4_length_check_before_ascii_filter 100 ["αβ γδ"] 0 "" (by decide)⟩

/-- C4 counterexample: the candidate "αβ γδ" has two raw tokens, so it
passes the at-most-one-token check (applied BEFORE ASCII stripping); both
tokens are erased by the ASCII filter and the empty string is appended to
the collection — refuting both the claimed filter order and the claim that
every stored sentence has at least 2 tokens and is non-empty. -/
theorem C4_counterexample :
    (create_path_2_sent_mapping 100 [⟨"p", "train", some "αβ γδ"⟩]).1
      = [("p", [""])] ∧
    (capTokens "αβ γδ").length = 2 ∧
    includedTokens (capTokens "αβ γδ") = [] :=
  ⟨by decide, by decide, by decide⟩

theorem string_eq_empty_of_length_zero {s : String} (h : s.length = 0) :
    s = "" := by
  cases s with
  | mk l =>
    have hl : l = [] := List.length_eq_zero.mp (by simpa [String.length] using h)
    rw [hl]

theorem recordKept_false_of_empty (maxWordNum : Nat) (r : StudyRecord)
    (h : recordCaptions r = "") : recordKept maxWordNum r = false := by
  simp only [recordKept, h]
  have hcand : splitCandidates (replaceNewlines "") = [""] := by decide
  rw [hcand]
  have hs : sentLoop maxWordNum [""] 0 = [] := by simp [sentLoop]
  simp [hs]

theorem buildStep_snd (maxWordNum : Nat)
    (acc : List (String × List String) × List String) (r : StudyRecord) :
    (buildStep maxWordNum acc r).2 = acc.2 ++ removeDelta maxWordNum r := by
  simp only [buildStep, removeDelta]
  by_cases hemp : ((recordCaptions r).length == 0) = true
  · have hq : recordKept maxWordNum r = false := by
      apply recordKept_false_of_empty
      exact string_eq_empty_of_length_zero (by simpa using hemp)
    have hq2 : ¬ 0 < (sentLoop maxWordNum
        (splitCandidates (replaceNewlines (recordCaptions r))) 0).length := by
      simpa [recordKept] using hq
    rw [if_pos hemp, if_pos hemp, if_neg hq2, if_neg (by simp [hq])]
    simp
  · rw [if_neg hemp, if_neg hemp]
    by_cases hkept : recordKept maxWordNum r = true
    · have hk2 : 0 < (sentLoop maxWordNum
          (splitCandidates (replaceNewlines (recordCaptions r))) 0).length := by
        simpa [recordKept] using hkept
      rw [if_pos hk2, if_pos hkept]
      simp
    · have hk2 : ¬ 0 < (sentLoop maxWordNum
          (splitCandidates (replaceNewlines (recordCaptions r))) 0).length := by
        simpa [recordKept] using hkept
      rw [if_neg hk2, if_neg hkept]
      simp

theorem mem_keys_buildStep (maxWordNum : Nat)
    (acc : List (String × List String) × List String) (r : StudyRecord)
    (p : String) :
    p ∈ dictKeys (buildStep maxWordNum acc r).1 ↔
      p ∈ dictKeys acc.1 ∨ (recordKept maxWordNum r = true ∧ p = r.imgPath) := by
  simp only [buildStep]
  by_cases hkept : recordKept maxWordNum r = true
  · have hk2 : 0 < (sentLoop maxWordNum
        (splitCandidates (replaceNewlines (recordCaptions r))) 0).length := by
      simpa [recordKept] using hkept
    rw [if_pos hk2]
    rw [show (dictInsert r.imgPath
      (sentLoop maxWordNum
        (splitCandidates (replaceNewlines (recordCaptions r))) 0) acc.1,
      if ((recordCaptions r).length == 0) = true
        then acc.2 ++ [r.imgPath] else acc.2).1
      = dictInsert r.imgPath
        (sentLoop maxWordNum
          (splitCandidates (replaceNewlines (recordCaptions r))) 0) acc.1
      from rfl]
    rw [mem_dictKeys_dictInsert]
    simp [hkept]
    tauto
  · have hk2 : ¬ 0 < (sentLoop maxWordNum
        (splitCandidates (replaceNewlines (recordCaptions r))) 0).length := by
      simpa [recordKept] using hkept
    rw [if_neg hk2]
    simp [hkept]

theorem mem_removeDelta (maxWordNum : Nat) (r : StudyRecord) (p : String) :
    p ∈ removeDelta maxWordNum r ↔
      recordKept maxWordNum r = false ∧ p = r.imgPath := by
  by_cases hemp : ((recordCaptions r).length == 0) = true
  · have hk : recordKept maxWordNum r = false :=
      recordKept_false_of_empty maxWordNum r
        (string_eq_empty_of_length_zero (by simpa using hemp))
    simp [removeDelta, hemp, hk]
  · by_cases hkept : recordKept maxWordNum r = true
    · simp [removeDelta, hemp, hkept]
    · have hk : recordKept maxWordNum r = false := by
        simpa using hkept
      simp [removeDelta, hemp, hk]

theorem build_partition_aux (maxWordNum : Nat) :
    ∀ (records : List StudyRecord) (m : List (String × List String))
      (rem : List String),
      (pathsOf records).Nodup →
      (∀ r2 ∈ records, r2.imgPath ∉ dictKeys m ∧ r2.imgPath ∉ rem) →
      (∀ p, p ∈ dictKeys m → p ∉ rem) →
      (∀ p, p ∈ dictKeys (records.foldl (buildStep maxWordNum) (m, rem)).1 →
        p ∉ (records.foldl (buildStep maxWordNum) (m, rem)).2) ∧
      (∀ p, (p ∈ dictKeys (records.foldl (buildStep maxWordNum) (m, rem)).1 ∨
          p ∈ (records.foldl (buildStep maxWordNum) (m, rem)).2) ↔
        (p ∈ dictKeys m ∨ p ∈ rem ∨ p ∈ pathsOf records)) := by
  intro records
  induction records with
  | nil =>
    intro m rem _ _ hdisj
    refine ⟨hdisj, ?_⟩
    intro p
    simp [pathsOf]
  | cons r rest ih =>
    intro m rem hnd hfresh hdisj
    rw [List.foldl_cons]
    have hnds : r.imgPath ∉ List.map (fun x => x.imgPath) rest ∧
        (pathsOf rest).Nodup := by
      simpa [pathsOf, List.nodup_cons] using hnd
    have hndr : r.imgPath ∉ pathsOf rest := hnds.1
    have hnd2 : (pathsOf rest).Nodup := hnds.2
    have hfr : r.imgPath ∉ dictKeys m ∧ r.imgPath ∉ rem :=
      hfresh r (List.mem_cons_self r rest)
    have hkeys : ∀ p, p ∈ dictKeys (buildStep maxWordNum (m, rem) r).1 ↔
        p ∈ dictKeys m ∨ (recordKept maxWordNum r = true ∧ p = r.imgPath) :=
      fun p => mem_keys_buildStep maxWordNum (m, rem) r p
    have hrem : ∀ p, p ∈ (buildStep maxWordNum (m, rem) r).2 ↔
        p ∈ rem ∨ (recordKept maxWordNum r = false ∧ p = r.imgPath) := by
      intro p
      rw [buildStep_snd]
      simp [List.mem_append, mem_removeDelta]
    have pre1 : ∀ r2 ∈ rest,
        r2.imgPath ∉ dictKeys (buildStep maxWordNum (m, rem) r).1 ∧
        r2.imgPath ∉ (buildStep maxWordNum (m, rem) r).2 := by
      intro r2 hr2
      have hne : r2.imgPath ≠ r.imgPath := by
        intro he
        exact hndr (he ▸ (List.mem_map_of_mem (fun x => x.imgPath) hr2))
      have hf2 := hfresh r2 (List.mem_cons_of_mem r hr2)
      constructor
      · rw [hkeys]
        rintro (h | ⟨_, h⟩)
        · exact hf2.1 h
        · exact hne h
      · rw [hrem]
        rintro (h | ⟨_, h⟩)
        · exact hf2.2 h
        · exact hne h
    have pre2 : ∀ p, p ∈ dictKeys (buildStep maxWordNum (m, rem) r).1 →
        p ∉ (buildStep maxWordNum (m, rem) r).2 := by
      intro p hp
      rw [hkeys] at hp
      rw [hrem]
      rintro (h | ⟨hkf, hpe⟩)
      · rcases hp with hp | ⟨_, hpe⟩
        · exact hdisj p hp h
        · exact hfr.2 (hpe ▸ h)
      · rcases hp with hp | ⟨hkt, hpe2⟩
        · exact hfr.1 (hpe ▸ hp)
        · exact absurd (hkt.symm.trans hkf) (by decide)
    have hmain := ih (buildStep maxWordNum (m, rem) r).1
      (buildStep maxWordNum (m, rem) r).2 hnd2 pre1 pre2
    refine ⟨fun p hp => hmain.1 p hp, ?_⟩
    intro p
    have h2 := hmain.2 p
    constructor
    · intro h
      rcases h2.mp h with h3 | h3 | h3
      · rcases (hkeys p).mp h3 with h4 | ⟨_, h4⟩
        · exact Or.inl h4
        · right; right
          rw [h4]
          simp [pathsOf]
      · rcases (hrem p).mp h3 with h4 | ⟨_, h4⟩
        · exact Or.inr (Or.inl h4)
        · right; right
          rw [h4]
          simp [pathsOf]
      · right; right
        simp only [pathsOf, List.map_cons, List.mem_cons]
        exact Or.inr h3
    · intro h
      apply h2.mpr
      rcases h with h | h | h
      · exact Or.inl ((hkeys p).mpr (Or.inl h))
      · exact Or.inr (Or.inl ((hrem p).mpr (Or.inl h)))
      · have h4 : p = r.imgPath ∨ p ∈ pathsOf rest := by
          simpa [pathsOf] using h
        rcases h4 with h4 | h4
        · by_cases hkept : recordKept maxWordNum r = true
          · exact Or.inl ((hkeys p).mpr (Or.inr ⟨hkept, h4⟩))
          · have hkf : recordKept maxWordNum r = false := by simpa using hkept
            exact Or.inr (Or.inl ((hrem p).mpr (Or.inr ⟨hkf, h4⟩)))
        · exact Or.inr (Or.inr h4)

/-- C7 (amended): for every record list whose image paths are pairwise
distinct — as the dataset constructor guarantees via its duplicate-id
assertions — the mapping keys and the removal list built by
`create_path_2_sent_mapping` are disjoint and their union is exactly the
set of input image paths. -/
theorem C7_partition_for_distinct_paths (maxWordNum : Nat)
    (records : List StudyRecord) (hnd : (pathsOf records).Nodup) :
    (∀ p, p ∈ dictKeys (create_path_2_sent_mapping maxWordNum records).1 →
      p ∉ (create_path_2_sent_mapping maxWordNum records).2) ∧
    (∀ p, p ∈ pathsOf records ↔
      (p ∈ dictKeys (create_path_2_sent_mapping maxWordNum records).1 ∨
        p ∈ (create_path_2_sent_mapping maxWordNum records).2)) := by
  have h := build_partition_aux maxWordNum records [] [] hnd
    (by intro r2 _; simp [dictKeys]) (by intro p hp; simp [dictKeys] at hp)
  refine ⟨h.1, ?_⟩
  intro p
  have h2 := h.2 p
  simp only [dictKeys, List.map_nil, List.not_mem_nil, false_or] at h2
  exact h2.symm

/-- C7 witness: on two records with distinct paths, "p2" (whose report is
empty) lands in exactly one side of the partition. -/
theorem C7_witness :
    (pathsOf [⟨"p1", "t", some "aa bb"⟩, ⟨"p2", "t", some ""⟩]).Nodup ∧
    ("p2" ∈ pathsOf [⟨"p1", "t", some "aa bb"⟩, ⟨"p2", "t", some ""⟩] ↔
      ("p2" ∈ dictKeys (create_path_2_sent_mapping 9
        [⟨"p1", "t", some "aa bb"⟩, ⟨"p2", "t", some ""⟩]).1 ∨
       "p2" ∈ (create_path_2_sent_mapping 9
        [⟨"p1", "t", some "aa bb"⟩, ⟨"p2", "t", some ""⟩]).2)) :=
  ⟨by decide,
    (C7_partition_for_distinct_paths 9
      [⟨"p1", "t", some "aa bb"⟩, ⟨"p2", "t", some ""⟩] (by decide)).2 "p2"⟩

/-- C7 counterexample: two records sharing the image path "p" — one with a
usable report and one with an empty report — put "p" both among the mapping
keys and in the removal list, refuting disjointness for arbitrary record
lists (the claim quantifies over every input record list). -/
theorem C7_counterexample :
    ("p" ∈ dictKeys (create_path_2_sent_mapping 9
      [⟨"p", "t", some "aa bb"⟩, ⟨"p", "t", some ""⟩]).1) ∧
    ("p" ∈ (create_path_2_sent_mapping 9
      [⟨"p", "t", some "aa bb"⟩, ⟨"p", "t", some ""⟩]).2) :=
  ⟨by decide, by decide⟩

theorem sortDesc_mem_pairs (xs : List Nat) (q : Nat × Nat)
    (hq : q ∈ List.insertionSort descOrder
      ((List.range xs.length).map (fun i => (xs.getD i 0, i)))) :
    q.1 = xs.getD q.2 0 := by
  have hq2 := (List.mem_insertionSort descOrder).mp hq
  obtain ⟨i, _, hi⟩ := List.mem_map.mp hq2
  rw [← hi]

theorem sortDesc_fst_eq (xs : List Nat) :
    (sortDesc xs).1 = indexBy (sortDesc xs).2 xs 0 := by
  simp only [sortDesc, indexBy]
  rw [List.map_map]
  exact List.map_congr_left (fun q hq => sortDesc_mem_pairs xs q hq)

theorem sortDesc_sorted (xs : List Nat) :
    List.Sorted (· ≥ ·) (sortDesc xs).1 := by
  simp only [sortDesc]
  exact List.Pairwise.map Prod.fst (fun a b hab => hab)
    (List.sorted_insertionSort descOrder
      ((List.range xs.length).map (fun i => (xs.getD i 0, i))))

theorem sortDesc_idx_perm (xs : List Nat) :
    (sortDesc xs).2.Perm (List.range xs.length) := by
  simp only [sortDesc]
  have h2 := (List.perm_insertionSort descOrder
    ((List.range xs.length).map (fun i => (xs.getD i 0, i)))).map Prod.snd
  rw [List.map_map,
    show (Prod.snd ∘ fun i => ((xs.getD i 0 : Nat), i)) = id from rfl,
    List.map_id] at h2
  exact h2

/-- C1 (amended): the collator computes the permutation sorting caption
lengths in non-increasing order and applies it to every stacked field
(caption ids, token type ids, attention mask, images, caption lengths) —
the sort indices are a permutation of the batch positions — but the `path`
list is returned in the original input order, NOT permuted, so the i-th
returned path does not in general correspond to the i-th returned caption
length. -/
theorem C1_collate_sorts_fields_but_not_paths (batch : List Sample) :
    (multimodal_collate_fn batch).caption_ids
      = indexBy (sortDesc (batch.map (fun b => b.capLen))).2
          (batch.map (fun b => b.inputIds)) [] ∧
    (multimodal_collate_fn batch).token_type_ids
      = indexBy (sortDesc (batch.map (fun b => b.capLen))).2
          (batch.map (fun b => b.tokenTypeIds)) [] ∧
    (multimodal_collate_fn batch).attention_mask
      = indexBy (sortDesc (batch.map (fun b => b.capLen))).2
          (batch.map (fun b => b.attentionMask)) [] ∧
    (multimodal_collate_fn batch).imgs
      = indexBy (sortDesc (batch.map (fun b => b.capLen))).2
          (batch.map (fun b => b.img)) 0 ∧
    (multimodal_collate_fn batch).cap_lens
      = indexBy (sortDesc (batch.map (fun b => b.capLen))).2
          (batch.map (fun b => b.capLen)) 0 ∧
    List.Sorted (· ≥ ·) (multimodal_collate_fn batch).cap_lens ∧
    (sortDesc (batch.map (fun b => b.capLen))).2.Perm
      (List.range batch.length) ∧
    (multimodal_collate_fn batch).path = batch.map (fun b => b.path) := by
  refine ⟨rfl, rfl, rfl, rfl, ?_, ?_, ?_, rfl⟩
  · exact sortDesc_fst_eq (batch.map (fun b => b.capLen))
  · exact sortDesc_sorted (batch.map (fun b => b.capLen))
  · have h := sortDesc_idx_perm (batch.map (fun b => b.capLen))
    simpa using h

/-- C1 counterexample: for caption lengths `[5, 12, 8]` the sort indices
are `[1, 2, 0]` and every stacked field is permuted accordingly
(`cap_lens = [12, 8, 5]`, `imgs = [11, 12, 10]`), but the returned `path`
list stays `["a", "b", "c"]` instead of the identically permuted
`["b", "c", "a"]` — refuting the claim that the permutation is also
applied to the paths list. -/
theorem C1_counterexample :
    (multimodal_collate_fn
      [⟨10, [1], [2], [3], 5, "a"⟩, ⟨11, [4], [5], [6], 12, "b"⟩,
        ⟨12, [7], [8], [9], 8, "c"⟩]).cap_lens = [12, 8, 5] ∧
    (multimodal_collate_fn
      [⟨10, [1], [2], [3], 5, "a"⟩, ⟨11, [4], [5], [6], 12, "b"⟩,
        ⟨12, [7], [8], [9], 8, "c"⟩]).imgs = [11, 12, 10] ∧
    (multimodal_collate_fn
      [⟨10, [1], [2], [3], 5, "a"⟩, ⟨11, [4], [5], [6], 12, "b"⟩,
        ⟨12, [7], [8], [9], 8, "c"⟩]).path = ["a", "b", "c"] ∧
    indexBy (sortDesc [5, 12, 8]).2 ["a", "b", "c"] "" = ["b", "c", "a"] ∧
    (multimodal_collate_fn
      [⟨10, [1], [2], [3], 5, "a"⟩, ⟨11, [4], [5], [6], 12, "b"⟩,
        ⟨12, [7], [8], [9], 8, "c"⟩]).path ≠ ["b", "c", "a"] :=
  ⟨by decide, by decide, by decide, by decide, by decide⟩

theorem getD_replicate_zero (n j : Nat) :
    (List.replicate n (0 : Nat)).getD j 0 = 0 := by
  induction n generalizing j with
  | zero => simp
  | succ n ih =>
    cases j with
    | zero => rfl
    | succ j => exact ih j

theorem getD_mem_or_eq {α : Type} (l : List α) (i : Nat) (d : α) :
    l.getD i d ∈ l ∨ l.getD i d = d := by
  by_cases h : i < l.length
  · left
    rw [List.getD_eq_getElem l d h]
    exact List.getElem_mem h
  · right
    exact List.getD_eq_default l d (by omega)

theorem mkGrid_length (h w : Nat) (f : Nat → Nat → Nat) :
    (mkGrid h w f).length = h := by
  simp [mkGrid]

theorem mkGrid_row_length (h w : Nat) (f : Nat → Nat → Nat) :
    ∀ row ∈ mkGrid h w f, row.length = w := by
  intro row hrow
  simp only [mkGrid, List.mem_map] at hrow
  obtain ⟨i, _, hi⟩ := hrow
  rw [← hi]
  simp

theorem padGrid_length (top bottom left right w : Nat) (g : List (List Nat)) :
    (padGrid top bottom left right w g).length = top + g.length + bottom := by
  unfold padGrid
  rw [List.length_append, List.length_append, List.length_replicate,
    List.length_replicate, List.length_map]

theorem padGrid_row_length (top bottom left right w : Nat)
    (g : List (List Nat)) (hg : ∀ r2 ∈ g, r2.length = w) :
    ∀ row ∈ padGrid top bottom left right w g,
      row.length = left + w + right := by
  intro row hrow
  simp only [padGrid, List.mem_append, List.mem_map] at hrow
  rcases hrow with (hrow | ⟨r2, hr2, hrow⟩) | hrow
  · rw [List.eq_of_mem_replicate hrow]
    simp
  · rw [← hrow]
    simp only [List.length_append, List.length_replicate, hg r2 hr2]
  · rw [List.eq_of_mem_replicate hrow]
    simp

theorem replicate_zrow_getD_getD (b lw i j : Nat) :
    ((List.replicate b (List.replicate lw (0 : Nat))).getD i []).getD j 0
      = 0 := by
  rcases getD_mem_or_eq (List.replicate b (List.replicate lw (0 : Nat))) i []
    with hmem | heq
  · rw [List.eq_of_mem_replicate hmem]
    exact getD_replicate_zero lw j
  · rw [heq]
    simp

theorem padGrid_row_outside_zero (top bottom left right w : Nat)
    (g : List (List Nat)) (i j : Nat)
    (hij : i < top ∨ top + g.length ≤ i) :
    ((padGrid top bottom left right w g).getD i []).getD j 0 = 0 := by
  rcases hij with hi | hi
  · have hX : i < ((List.replicate top
        (List.replicate (left + w + right) (0 : Nat))) ++
        g.map (fun row =>
          List.replicate left 0 ++ row ++ List.replicate right 0)).length := by
      simp only [List.length_append, List.length_replicate, List.length_map]
      omega
    unfold padGrid
    rw [List.getD_append _ _ [] i hX,
      List.getD_append _ _ [] i (by simpa using hi)]
    exact replicate_zrow_getD_getD top (left + w + right) i j
  · have hX : ((List.replicate top
        (List.replicate (left + w + right) (0 : Nat))) ++
        g.map (fun row =>
          List.replicate left 0 ++ row ++ List.replicate right 0)).length
        ≤ i := by
      simp only [List.length_append, List.length_replicate, List.length_map]
      omega
    unfold padGrid
    rw [List.getD_append_right _ _ [] i hX]
    exact replicate_zrow_getD_getD bottom (left + w + right) _ j

theorem padGrid_col_outside_zero (top bottom left right w : Nat)
    (g : List (List Nat)) (hg : ∀ r2 ∈ g, r2.length = w) (i j : Nat)
    (hj : j < left ∨ left + w ≤ j) :
    ((padGrid top bottom left right w g).getD i []).getD j 0 = 0 := by
  rcases getD_mem_or_eq (padGrid top bottom left right w g) i []
    with hmem | heq
  · generalize hrow0 : (padGrid top bottom left right w g).getD i [] = row
      at hmem ⊢
    simp only [padGrid, List.mem_append, List.mem_map] at hmem
    rcases hmem with (hrow | ⟨r2, hr2, hrow⟩) | hrow
    · rw [List.eq_of_mem_replicate hrow]
      exact getD_replicate_zero _ j
    · rw [← hrow]
      rcases hj with hj | hj
      · have h1 : j < ((List.replicate left (0 : Nat)) ++ r2).length := by
          simp only [List.length_append, List.length_replicate]
          omega
        rw [List.getD_append _ _ 0 j h1,
          List.getD_append _ _ 0 j (by simpa using hj)]
        exact getD_replicate_zero left j
      · have h1 : ((List.replicate left (0 : Nat)) ++ r2).length ≤ j := by
          simp only [List.length_append, List.length_replicate, hg r2 hr2]
          omega
        rw [List.getD_append_right _ _ 0 j h1]
        exact getD_replicate_zero right _
    · rw [List.eq_of_mem_replicate hrow]
      exact getD_replicate_zero _ j
  · rw [heq]
    simp

theorem scaled_floor_le (a b scale : Nat) (hab : a ≤ b) (hb : 1 ≤ b) :
    a * scale / b ≤ scale := by
  calc a * scale / b ≤ b * scale / b :=
        Nat.div_le_div_right (Nat.mul_le_mul_right scale hab)
    _ = scale := Nat.mul_div_cancel_left scale hb

/-- C5: for every input image with height, width ≥ 1 and every target size,
`_resize_img` returns an exactly `scale × scale` image (modelling the float
products with exact rational arithmetic floored by `int`): the longer
spatial dimension is resized to exactly `scale`, the shorter to the floor
of the same scale factor; on each axis the leading and trailing pads sum to
`scale` minus the resized dimension, with leading = floor(pad/2) ≤ trailing
= ceil(pad/2) and trailing − leading ≤ 1; the longer dimension receives no
padding; and every pixel outside the resized region — the padded rows and
the padded columns — is zero. -/
theorem C5_resize_square_zero_pad (scale h w : Nat) (f : Nat → Nat → Nat)
    (hh : 1 ≤ h) (hw : 1 ≤ w) :
    (_resize_img scale h w f).length = scale ∧
    (∀ row ∈ _resize_img scale h w f, row.length = scale) ∧
    (h ≥ w → (resizeDims scale h w).1 = scale ∧
      (resizeDims scale h w).2 = w * scale / h) ∧
    (w > h → (resizeDims scale h w).2 = scale ∧
      (resizeDims scale h w).1 = h * scale / w) ∧
    ((padAmounts scale h w).1 + (padAmounts scale h w).2.1
      = scale - (resizeDims scale h w).1) ∧
    ((padAmounts scale h w).2.2.1 + (padAmounts scale h w).2.2.2
      = scale - (resizeDims scale h w).2) ∧
    ((padAmounts scale h w).1 ≤ (padAmounts scale h w).2.1 ∧
      (padAmounts scale h w).2.1 - (padAmounts scale h w).1 ≤ 1 ∧
      (padAmounts scale h w).2.2.1 ≤ (padAmounts scale h w).2.2.2 ∧
      (padAmounts scale h w).2.2.2 - (padAmounts scale h w).2.2.1 ≤ 1) ∧
    (h ≥ w → (padAmounts scale h w).1 = 0 ∧ (padAmounts scale h w).2.1 = 0) ∧
    (w > h → (padAmounts scale h w).2.2.1 = 0 ∧
      (padAmounts scale h w).2.2.2 = 0) ∧
    (∀ i j, (i < (padAmounts scale h w).1 ∨
        (padAmounts scale h w).1 + (resizeDims scale h w).1 ≤ i) →
      ((_resize_img scale h w f).getD i []).getD j 0 = 0) ∧
    (∀ i j, (j < (padAmounts scale h w).2.2.1 ∨
        (padAmounts scale h w).2.2.1 + (resizeDims scale h w).2 ≤ j) →
      ((_resize_img scale h w f).getD i []).getD j 0 = 0) := by
  by_cases hcase : h ≥ w
  · have hnw : w * scale / h ≤ scale := scaled_floor_le w h scale hcase hh
    have hd : resizeDims scale h w = (scale, w * scale / h) := by
      simp [resizeDims, hcase]
    have hp : padAmounts scale h w =
        (0, 0, (scale - w * scale / h) / 2,
          (scale - w * scale / h) - (scale - w * scale / h) / 2) := by
      simp [padAmounts, hcase]
    have hr : _resize_img scale h w f =
        padGrid 0 0 ((scale - w * scale / h) / 2)
          ((scale - w * scale / h) - (scale - w * scale / h) / 2)
          (w * scale / h) (mkGrid scale (w * scale / h) f) := by
      rw [_resize_img, hd, hp]
    rw [hd, hp, hr]
    dsimp only
    refine ⟨?_, ?_, ?_, ?_, ?_, ?_, ?_, ?_, ?_, ?_, ?_⟩
    · rw [padGrid_length, mkGrid_length]
      omega
    · intro row hrow
      have h2 := padGrid_row_length _ _ _ _ _ _
        (mkGrid_row_length scale (w * scale / h) f) row hrow
      omega
    · intro _
      exact ⟨rfl, rfl⟩
    · intro hcontra
      omega
    · omega
    · omega
    · refine ⟨le_refl 0, by omega, by omega, by omega⟩
    · intro _
      exact ⟨rfl, rfl⟩
    · intro hcontra
      omega
    · intro i j hij
      apply padGrid_row_outside_zero
      rcases hij with hij | hij
      · omega
      · right
        rw [mkGrid_length]
        omega
    · intro i j hj
      exact padGrid_col_outside_zero _ _ _ _ _ _
        (mkGrid_row_length scale (w * scale / h) f) i j hj
  · have hwh : h ≤ w := by omega
    have hnh : h * scale / w ≤ scale := scaled_floor_le h w scale hwh hw
    have hd : resizeDims scale h w = (h * scale / w, scale) := by
      simp only [resizeDims]
      rw [if_neg hcase]
    have hp : padAmounts scale h w =
        ((scale - h * scale / w) / 2,
          (scale - h * scale / w) - (scale - h * scale / w) / 2, 0, 0) := by
      simp only [padAmounts]
      rw [if_neg hcase]
    have hr : _resize_img scale h w f =
        padGrid ((scale - h * scale / w) / 2)
          ((scale - h * scale / w) - (scale - h * scale / w) / 2)
          0 0 scale (mkGrid (h * scale / w) scale f) := by
      rw [_resize_img, hd, hp]
    rw [hd, hp, hr]
    dsimp only
    refine ⟨?_, ?_, ?_, ?_, ?_, ?_, ?_, ?_, ?_, ?_, ?_⟩
    · rw [padGrid_length, mkGrid_length]
      omega
    · intro row hrow
      have h2 := padGrid_row_length _ _ _ _ _ _
        (mkGrid_row_length (h * scale / w) scale f) row hrow
      omega
    · intro hcontra
      omega
    · intro _
      exact ⟨rfl, rfl⟩
    · omega
    · omega
    · refine ⟨by omega, by omega, le_refl 0, by omega⟩
    · intro hcontra
      omega
    · intro _
      exact ⟨rfl, rfl⟩
    · intro i j hij
      apply padGrid_row_outside_zero
      rcases hij with hij | hij
      · omega
      · right
        rw [mkGrid_length]
        omega
    · intro i j hj
      exact padGrid_col_outside_zero _ _ _ _ _ _
        (mkGrid_row_length (h * scale / w) scale f) i j hj

/-- C5 witness: a 2 × 3 image resized to target size 4 — the width is the
longer dimension — yields an exactly 4 × 4 output. -/
theorem C5_witness :
    1 ≤ 2 ∧ 1 ≤ 3 ∧
    (_resize_img 4 2 3 (fun i j => i + j)).length = 4 :=
  ⟨by decide, by decide,
    (C5_resize_square_zero_pad 4 2 3 (fun i j => i + j)
      (by decide) (by decide)).1⟩
